import Mathlib

/-!
Verification development for the phonetisaurus-g2p-py repository.

The repository ships two Python source files: `src/python/example.py`, a CLI
wrapper around the native binding, and `src/python/phonetisaurus_g2p_py/__init__.py`,
which re-exports the native classes. The G2P decoder itself (model loading,
grapheme segmentation, FST path search, result assembly) is not part of the
provided sources; its behaviour is specified in `spec.md`. Accordingly, the
CLI is embedded directly from `example.py`, while the decoder components are
modelled from the specification, as indicated in each doc comment.

Weights and scores (floats in the specification) are modelled as rationals.
-/

namespace PhonG2P

/-! ### Embedding of src/python/example.py -/

/-- Result object produced by `phonemize_word` in the Python binding, as used
by `example.py`: a list of phoneme strings (`result.phonemes`) and a
negative-log score (`result.neg_log_score`). -/
structure PyResult where
  phonemes : List String
  negLogScore : ℚ
deriving DecidableEq

/-- Rendering of a rational score as a string, standing in for Python float
formatting (the exact float formatting is not part of any claim). -/
def scoreString (q : ℚ) : String :=
  toString q.num ++ "/" ++ toString q.den

/-- Embedding of `main` from `src/python/example.py`. The two native calls
(`PhonetisaurusModel(model_path)` and `model.phonemize_word(word)`) are
parameters; each either succeeds or raises an exception carrying a message,
matching the broad `except Exception` in the source. Returns the lines
printed to standard output together with the process exit code (falling off
the end of `main` is exit code 0; `sys.exit(1)` is exit code 1). -/
def main (α : Type) (argv : List String)
    (constructModel : String → Except String α)
    (phonemize_word : α → String → Except String PyResult) :
    List String × Nat :=
  if argv.length ≠ 3 then
    (["Usage: python example.py <model_path> <word>"], 1)
  else
    let model_path := argv.getD 1 ""
    let word := argv.getD 2 ""
    match constructModel model_path with
    | .error e => (["Error: " ++ e], 1)
    | .ok model =>
      match phonemize_word model word with
      | .error e => (["Error: " ++ e], 1)
      | .ok result =>
        (["Word: " ++ word,
          "Phonemes: " ++ toString result.phonemes,
          "Score: " ++ scoreString result.negLogScore], 0)

/-! ### Data model, modelled from the specification -/

/-- Modelled from the spec: the decoder sources are not in the repository.
An FST arc as stored per state: input label id, output label id, a
non-negative weight (negative log probability, modelled as a rational), and
the target state index. The source state is implicit in the owning
`FstState`. -/
structure FstArc where
  inputLabelId : Nat
  outputLabelId : Nat
  weight : ℚ
  targetState : Nat
deriving DecidableEq

/-- Modelled from the spec: an FST state holds an optional final weight and
its outgoing arcs. -/
structure FstState where
  finalWeight : Option ℚ
  arcs : List FstArc
deriving DecidableEq

/-- Modelled from the spec: a symbol table maps symbol strings to dense
integer ids (id 0 is reserved for epsilon). -/
abbrev SymbolTable := List (String × Nat)

/-- Modelled from the spec: a Model owns one input/output symbol table pair
and one complete FST graph. The binary format stores no separate start
state, so state 0 is the start state. -/
structure Model where
  inputTable : SymbolTable
  outputTable : SymbolTable
  states : List FstState
deriving DecidableEq

/-- Modelled from the spec: `idOf(symbol)` returns the id of a symbol, or
none when the symbol is unknown. -/
def idOf (t : SymbolTable) (s : String) : Option Nat :=
  (t.find? fun p => p.1 == s).map Prod.snd

/-- Modelled from the spec: `symbolOf(id)` returns the string of an id, or
none when the id is unknown. -/
def symbolOf (t : SymbolTable) (i : Nat) : Option String :=
  (t.find? fun p => p.2 == i).map Prod.fst

/-- Modelled from the spec: `startState()` of the FST store; the format
stores no start-state field, so it is state 0. -/
def startState (_ : Model) : Nat := 0

/-- A state with no final weight and no arcs, used for out-of-range state
indices (the loader rejects dangling references, so loaded models never hit
this default). -/
def emptyState : FstState := ⟨none, []⟩

def getState (m : Model) (s : Nat) : FstState :=
  m.states.getD s emptyState

/-- Modelled from the spec: `finalWeight(state)`. -/
def finalWeight (m : Model) (s : Nat) : Option ℚ :=
  (getState m s).finalWeight

/-- Modelled from the spec: the outgoing arcs of a state. -/
def arcsFrom (m : Model) (s : Nat) : List FstArc :=
  (getState m s).arcs

/-! ### Grapheme segmenter, modelled from the specification -/

/-- Modelled from the spec: the unknown sentinel id. When the input table
contains a reserved symbol for unknowns its id is used; otherwise an id
strictly greater than every table id (hence matched by no table symbol)
serves as the sentinel. -/
def unknownId (m : Model) : Nat :=
  match idOf m.inputTable "<unk>" with
  | some i => i
  | none => (m.inputTable.map Prod.snd).foldr max 0 + 1

/-- Look up the grapheme formed by the first `k` characters of `cs`. -/
def lookupTake (t : SymbolTable) (cs : List Char) (k : Nat) : Option Nat :=
  idOf t (String.mk (cs.take k))

/-- Modelled from the spec: one greedy longest-match step of the grapheme
segmenter with maximum grapheme length 3. Returns the matched id (or the
unknown sentinel) and the number of characters consumed (at least one). -/
def graphemeStep (m : Model) (cs : List Char) : Nat × Nat :=
  match lookupTake m.inputTable cs 3 with
  | some i => (i, (cs.take 3).length)
  | none =>
    match lookupTake m.inputTable cs 2 with
    | some i => (i, (cs.take 2).length)
    | none =>
      match lookupTake m.inputTable cs 1 with
      | some i => (i, 1)
      | none => (unknownId m, 1)

/-- Modelled from the spec: greedy longest-match segmentation of a character
list into grapheme ids, deterministic and restartable. The first argument
is a structural termination bound; since every `graphemeStep` consumes at
least one character (`graphemeStep_pos` below), a bound equal to the input
length never runs out. -/
def segmentGo (m : Model) : Nat → List Char → List Nat
  | _, [] => []
  | 0, _ :: _ => []
  | f + 1, c :: rest =>
    (graphemeStep m (c :: rest)).1 ::
      segmentGo m f ((c :: rest).drop (graphemeStep m (c :: rest)).2)

/-- Modelled from the spec: segmentation of an input word. -/
def segment (m : Model) (w : String) : List Nat :=
  segmentGo m w.toList.length w.toList

/-! ### Path search engine, modelled from the specification -/

/-- Modelled from the spec: a search hypothesis carries the current FST
state, the cumulative weight, and the output labels collected along the
path. The grapheme position is implicit in the position-by-position beam
expansion below. -/
structure Hyp where
  state : Nat
  weight : ℚ
  outs : List Nat
deriving DecidableEq

/-- Weight order on hypotheses, used for beam pruning. -/
def hypLE (a b : Hyp) : Prop := a.weight ≤ b.weight

instance : DecidableRel hypLE :=
  fun a b => inferInstanceAs (Decidable (a.weight ≤ b.weight))

instance : IsTotal Hyp hypLE := ⟨fun a b => le_total a.weight b.weight⟩

instance : IsTrans Hyp hypLE := ⟨fun _ _ _ h h₂ => le_trans h h₂⟩

/-- Modelled from the spec: decode options `{nBest, beamWidth,
maxEpsilonDepth}`. -/
structure Options where
  nBest : Nat
  beamWidth : Nat
  maxEpsilonDepth : Nat
deriving DecidableEq

/-- Modelled from the spec: follow one epsilon-input arc (inputLabelId 0)
from a hypothesis without consuming a grapheme, accumulating the arc weight
and output label. -/
def stepEps (m : Model) (h : Hyp) : List Hyp :=
  (arcsFrom m h.state).filterMap fun a =>
    if a.inputLabelId = 0 then
      some ⟨a.targetState, h.weight + a.weight, h.outs ++ [a.outputLabelId]⟩
    else none

/-- Modelled from the spec: epsilon closure bounded by a maximum
epsilon-chain depth, guaranteeing termination in case of epsilon cycles. -/
def epsClose (m : Model) : Nat → List Hyp → List Hyp
  | 0, hs => hs
  | d + 1, hs => hs ++ epsClose m d (hs.flatMap (stepEps m))

/-- Modelled from the spec: follow the arcs whose input label equals the
current grapheme id, consuming one grapheme. -/
def stepConsume (m : Model) (g : Nat) (h : Hyp) : List Hyp :=
  (arcsFrom m h.state).filterMap fun a =>
    if a.inputLabelId = g then
      some ⟨a.targetState, h.weight + a.weight, h.outs ++ [a.outputLabelId]⟩
    else none

/-- Modelled from the spec: beam pruning caps the number of active
hypotheses per position, keeping the lowest cumulative weights. -/
def pruneBeam (bw : Nat) (hs : List Hyp) : List Hyp :=
  (List.insertionSort hypLE hs).take bw

/-- Modelled from the spec: the initial frontier at grapheme position 0,
the start state with weight 0 and its epsilon closure. -/
def initialHyps (m : Model) (o : Options) : List Hyp :=
  pruneBeam o.beamWidth (epsClose m o.maxEpsilonDepth [⟨startState m, 0, []⟩])

/-- Modelled from the spec: advance the frontier by one grapheme: consume
the grapheme, take the epsilon closure, prune to the beam width. -/
def expandStep (m : Model) (o : Options) (hs : List Hyp) (g : Nat) : List Hyp :=
  pruneBeam o.beamWidth (epsClose m o.maxEpsilonDepth (hs.flatMap (stepConsume m g)))

/-- Modelled from the spec: run the beam search over the whole grapheme
sequence. -/
def runSeq (m : Model) (o : Options) (gs : List Nat) : List Hyp :=
  List.foldl (expandStep m o) (initialHyps m o) gs

/-- Modelled from the spec: hypotheses that consumed the whole sequence and
sit in a final state are complete; the final weight is added to their
cumulative weight. -/
def completeHyps (m : Model) (o : Options) (gs : List Nat) : List Hyp :=
  (runSeq m o gs).filterMap fun h =>
    match finalWeight m h.state with
    | some fw => some ⟨h.state, h.weight + fw, h.outs⟩
    | none => none

/-! ### Result assembler, modelled from the specification -/

/-- Modelled from the spec: a phonemization result is an ordered phoneme
sequence plus one score (negative log probability, lower is better). -/
structure PhonemizationResult where
  phonemes : List String
  score : ℚ
deriving DecidableEq

/-- Score order on results. -/
def resLE (a b : PhonemizationResult) : Prop := a.score ≤ b.score

instance : DecidableRel resLE :=
  fun a b => inferInstanceAs (Decidable (a.score ≤ b.score))

instance : IsTotal PhonemizationResult resLE := ⟨fun a b => le_total a.score b.score⟩

instance : IsTrans PhonemizationResult resLE := ⟨fun _ _ _ h h₂ => le_trans h h₂⟩

/-- Modelled from the spec: map a complete hypothesis to a result: output
labels become phoneme strings through the output symbol table, epsilon
output labels (id 0) are skipped. -/
def assemble (m : Model) (h : Hyp) : PhonemizationResult :=
  ⟨h.outs.filterMap (fun i => if i = 0 then none else symbolOf m.outputTable i),
    h.weight⟩

/-- Modelled from the spec: deduplicate results by phoneme sequence,
keeping the first (hence, on a score-sorted list, lowest-weight)
occurrence of each sequence. -/
def dedupBy : List (List String) → List PhonemizationResult → List PhonemizationResult
  | _, [] => []
  | seen, r :: rs =>
    if r.phonemes ∈ seen then dedupBy seen rs
    else r :: dedupBy (r.phonemes :: seen) rs

/-- Modelled from the spec: the full ordered result list for a word: decode,
assemble, sort ascending by score, deduplicate keeping the lower-weight
occurrence. -/
def rankedResults (m : Model) (o : Options) (w : String) : List PhonemizationResult :=
  dedupBy [] (List.insertionSort resLE ((completeHyps m o (segment m w)).map (assemble m)))

/-- Modelled from the spec: decode errors; `timeout` can only arise with a
deadline option, which the specified option record does not carry. -/
inductive DecodeError where
  | emptyInput
  | timeout
deriving DecidableEq

/-- Modelled from the spec: `phonemizeWord(model, word, options)` returns
the `nBest` lowest-score results; an empty input word is a `DecodeError`,
while absence of any valid pronunciation path yields an empty result
sequence, not an error. -/
def phonemizeWord (m : Model) (w : String) (o : Options) :
    Except DecodeError (List PhonemizationResult) :=
  if w = "" then .error .emptyInput
  else .ok ((rankedResults m o w).take o.nBest)

/-! ### Binary model format and loader, modelled from the specification -/

/-- Modelled from the spec: the serialized model is a token stream (a
shallow embedding of the byte-level format): integer fields, string fields
and weight fields in the order fixed by the format section. -/
inductive Tok where
  | nat (n : Nat)
  | str (s : String)
  | rat (q : ℚ)
deriving DecidableEq

/-- Modelled from the spec: the load error taxonomy. Structural parse
failures of the stream (truncation, wrong field kinds, bad magic or
version) are reported as `corruptHeader`. -/
inductive LoadError where
  | fileNotFound
  | corruptHeader
  | inconsistentSymbolTable
  | danglingArcReference
  | noFinalStateReachable
deriving DecidableEq

def magicNumber : Nat := 0x47325046

def formatVersion : Nat := 1

/-- Modelled from the spec: one symbol-table entry is a (string, id) pair. -/
def encodePair (p : String × Nat) : List Tok :=
  [Tok.str p.1, Tok.nat p.2]

/-- Modelled from the spec: a symbol table is its count followed by its
(string, id) pairs. -/
def encodeTable (t : SymbolTable) : List Tok :=
  Tok.nat t.length :: t.flatMap encodePair

/-- Modelled from the spec: an arc is {inputId, outputId, weight,
targetState}. -/
def encodeArc (a : FstArc) : List Tok :=
  [Tok.nat a.inputLabelId, Tok.nat a.outputLabelId, Tok.rat a.weight,
    Tok.nat a.targetState]

/-- Modelled from the spec: a state is final-weight flag (+ value), arc
count, arc list. -/
def encodeState (s : FstState) : List Tok :=
  (match s.finalWeight with
   | some w => [Tok.nat 1, Tok.rat w]
   | none => [Tok.nat 0]) ++
    Tok.nat s.arcs.length :: s.arcs.flatMap encodeArc

/-- Modelled from the spec: serialization of a model: header {magic,
version}, input symbol table, output symbol table, state count, states. -/
def serializeModel (m : Model) : List Tok :=
  [Tok.nat magicNumber, Tok.nat formatVersion] ++
    encodeTable m.inputTable ++ encodeTable m.outputTable ++
      [Tok.nat m.states.length] ++ m.states.flatMap encodeState

/-- Parse `n` symbol-table pairs. -/
def parsePairs : Nat → List Tok → Except LoadError (SymbolTable × List Tok)
  | 0, r => .ok ([], r)
  | n + 1, Tok.str s :: Tok.nat i :: r =>
    match parsePairs n r with
    | .ok (ps, r₂) => .ok ((s, i) :: ps, r₂)
    | .error e => .error e
  | _ + 1, _ => .error .corruptHeader

/-- Parse a symbol table: count, then that many pairs. -/
def parseTable : List Tok → Except LoadError (SymbolTable × List Tok)
  | Tok.nat n :: r => parsePairs n r
  | _ => .error .corruptHeader

/-- Parse `n` arcs. -/
def parseArcs : Nat → List Tok → Except LoadError (List FstArc × List Tok)
  | 0, r => .ok ([], r)
  | n + 1, Tok.nat i :: Tok.nat o :: Tok.rat w :: Tok.nat t :: r =>
    match parseArcs n r with
    | .ok (as, r₂) => .ok (⟨i, o, w, t⟩ :: as, r₂)
    | .error e => .error e
  | _ + 1, _ => .error .corruptHeader

/-- Parse one state: final-weight flag (+ value), arc count, arcs. -/
def parseState : List Tok → Except LoadError (FstState × List Tok)
  | Tok.nat 1 :: Tok.rat w :: Tok.nat n :: r =>
    (match parseArcs n r with
     | .ok (as, r₂) => .ok (⟨some w, as⟩, r₂)
     | .error e => .error e)
  | Tok.nat 0 :: Tok.nat n :: r =>
    (match parseArcs n r with
     | .ok (as, r₂) => .ok (⟨none, as⟩, r₂)
     | .error e => .error e)
  | _ => .error .corruptHeader

/-- Parse `n` states. -/
def parseStates : Nat → List Tok → Except LoadError (List FstState × List Tok)
  | 0, r => .ok ([], r)
  | n + 1, ts =>
    match parseState ts with
    | .ok (st, r₁) =>
      (match parseStates n r₁ with
       | .ok (sts, r₂) => .ok (st :: sts, r₂)
       | .error e => .error e)
    | .error e => .error e

/-- Modelled from the spec: parse a whole serialized model, checking the
magic/version header and requiring the stream to be fully consumed. -/
def parseModel (ts : List Tok) : Except LoadError Model :=
  match ts with
  | Tok.nat mg :: Tok.nat v :: r =>
    if mg = magicNumber ∧ v = formatVersion then
      match parseTable r with
      | .ok (tIn, r₁) =>
        (match parseTable r₁ with
         | .ok (tOut, r₂) =>
           (match r₂ with
            | Tok.nat n :: r₃ =>
              (match parseStates n r₃ with
               | .ok (sts, r₄) =>
                 if r₄ = [] then .ok ⟨tIn, tOut, sts⟩ else .error .corruptHeader
               | .error e => .error e)
            | _ => .error .corruptHeader)
         | .error e => .error e)
      | .error e => .error e
    else .error .corruptHeader
  | _ => .error .corruptHeader

/-- Modelled from the spec: symbol-table consistency: no duplicate symbol
strings. -/
def tableConsistent (t : SymbolTable) : Prop :=
  (t.map Prod.fst).Nodup

instance (t : SymbolTable) : Decidable (tableConsistent t) :=
  inferInstanceAs (Decidable ((t.map Prod.fst).Nodup))

/-- Modelled from the spec: every arc target state is in bounds (no
dangling references). -/
def arcsInBounds (m : Model) : Prop :=
  ∀ st ∈ m.states, ∀ a ∈ st.arcs, a.targetState < m.states.length

instance (m : Model) : Decidable (arcsInBounds m) :=
  inferInstanceAs (Decidable (∀ st ∈ m.states, ∀ a ∈ st.arcs,
    a.targetState < m.states.length))

/-- One expansion step of the reachable-state set. -/
def reachStep (m : Model) (s : List Nat) : List Nat :=
  (s ++ s.flatMap fun q => (arcsFrom m q).map fun a => a.targetState).dedup

def reachAux (m : Model) : Nat → List Nat → List Nat
  | 0, s => s
  | n + 1, s => reachAux m n (reachStep m s)

/-- Modelled from the spec: the states reachable from the start state
(expanding as many times as there are states saturates the set). -/
def reachableStates (m : Model) : List Nat :=
  reachAux m m.states.length [startState m]

/-- Modelled from the spec: at least one final state is reachable from the
start state. -/
def someFinalReachable (m : Model) : Prop :=
  ∃ s ∈ reachableStates m, (finalWeight m s).isSome

instance (m : Model) : Decidable (someFinalReachable m) :=
  inferInstanceAs (Decidable (∃ s ∈ reachableStates m, (finalWeight m s).isSome))

/-- Modelled from the spec: the loader's structural-integrity validation,
mapping each failed check to its `LoadError` kind. -/
def validateModel (m : Model) : Except LoadError Model :=
  if ¬ tableConsistent m.inputTable then .error .inconsistentSymbolTable
  else if ¬ tableConsistent m.outputTable then .error .inconsistentSymbolTable
  else if ¬ arcsInBounds m then .error .danglingArcReference
  else if ¬ someFinalReachable m then .error .noFinalStateReachable
  else .ok m

/-- Modelled from the spec: `load` parses the stream and validates the
parsed model; it either fails with a `LoadError` or returns a fully
validated Model. -/
def loadModel (ts : List Tok) : Except LoadError Model :=
  match parseModel ts with
  | .ok m => validateModel m
  | .error e => .error e

/-- All the loader's validation checks, as one predicate. -/
def wellFormed (m : Model) : Prop :=
  tableConsistent m.inputTable ∧ tableConsistent m.outputTable ∧
    arcsInBounds m ∧ someFinalReachable m

instance (m : Model) : Decidable (wellFormed m) :=
  inferInstanceAs (Decidable (_ ∧ _ ∧ _ ∧ _))

/-- Modelled from the spec: decode operations are read-only over the shared
model; a decode call returns its results together with the model state it
leaves behind, which is the model it was given. -/
def phonemizeWordS (m : Model) (w : String) (o : Options) :
    Except DecodeError (List PhonemizationResult) × Model :=
  (phonemizeWord m w o, m)

/-- Run a sequence of decode calls, threading the model state through. -/
def runDecodes (m : Model) : List (String × Options) → Model
  | [] => m
  | c :: cs => runDecodes (phonemizeWordS m c.1 c.2).2 cs

/-- The single-arc scenario model from the specification: one state that is
both start and final (final weight 0), with one arc labelled grapheme
"a" → phoneme "AH" of weight 1/10. -/
def model9 : Model :=
  { inputTable := [("a", 1)], outputTable := [("AH", 1)],
    states := [⟨some 0, [⟨1, 1, 1/10, 0⟩]⟩] }

/-! ### Theorems -/

theorem graphemeStep_pos (m : Model) (c : Char) (rest : List Char) :
    1 ≤ (graphemeStep m (c :: rest)).2 := by
  unfold graphemeStep
  cases lookupTake m.inputTable (c :: rest) 3 with
  | some i => simp [List.length_take]
  | none =>
    cases lookupTake m.inputTable (c :: rest) 2 with
    | some i => simp [List.length_take]
    | none =>
      cases lookupTake m.inputTable (c :: rest) 1 with
      | some i => simp
      | none => simp

theorem dedupBy_sublist (seen : List (List String)) (l : List PhonemizationResult) :
    List.Sublist (dedupBy seen l) l := by
  induction l generalizing seen with
  | nil => simp [dedupBy]
  | cons r rsl ih =>
    unfold dedupBy
    by_cases hc : r.phonemes ∈ seen
    · simp only [if_pos hc]
      exact List.Sublist.cons r (ih seen)
    · simp only [if_neg hc]
      exact List.Sublist.cons₂ r (ih _)

theorem rankedResults_sorted (m : Model) (o : Options) (w : String) :
    List.Sorted resLE (rankedResults m o w) :=
  List.Pairwise.sublist (dedupBy_sublist _ _)
    (List.sorted_insertionSort resLE ((completeHyps m o (segment m w)).map (assemble m)))

theorem rankedResults_nBest_irrelevant (m : Model) (w : String)
    (n₁ n₂ bw ed : Nat) :
    rankedResults m ⟨n₁, bw, ed⟩ w = rankedResults m ⟨n₂, bw, ed⟩ w := rfl

theorem parsePairs_encodes (ps : SymbolTable) (r : List Tok) :
    parsePairs ps.length (ps.flatMap encodePair ++ r) = .ok (ps, r) := by
  induction ps with
  | nil => simp [parsePairs]
  | cons p ps ih =>
    obtain ⟨s, i⟩ := p
    have ih₂ : parsePairs ps.length ((List.map encodePair ps).flatten ++ r) =
        .ok (ps, r) := ih
    simp [encodePair, parsePairs, ih₂]

theorem parseTable_encodes (t : SymbolTable) (r : List Tok) :
    parseTable (encodeTable t ++ r) = .ok (t, r) := by
  simp [encodeTable, parseTable, parsePairs_encodes]

theorem parseArcs_encodes (as : List FstArc) (r : List Tok) :
    parseArcs as.length (as.flatMap encodeArc ++ r) = .ok (as, r) := by
  induction as with
  | nil => simp [parseArcs]
  | cons a as ih =>
    obtain ⟨i, o, w, t⟩ := a
    have ih₂ : parseArcs as.length ((List.map encodeArc as).flatten ++ r) =
        .ok (as, r) := ih
    simp [encodeArc, parseArcs, ih₂]

theorem parseState_encodes (st : FstState) (r : List Tok) :
    parseState (encodeState st ++ r) = .ok (st, r) := by
  obtain ⟨fw, as⟩ := st
  cases fw with
  | none => simp [encodeState, parseState, parseArcs_encodes]
  | some w => simp [encodeState, parseState, parseArcs_encodes]

theorem parseStates_encodes (sts : List FstState) (r : List Tok) :
    parseStates sts.length (sts.flatMap encodeState ++ r) = .ok (sts, r) := by
  induction sts with
  | nil => simp [parseStates]
  | cons st sts ih =>
    simp [parseStates, List.append_assoc, parseState_encodes, ih]

theorem parseModel_serialize (m : Model) :
    parseModel (serializeModel m) = .ok m := by
  have hs : parseStates m.states.length (m.states.flatMap encodeState) =
      .ok (m.states, []) := by
    have h := parseStates_encodes m.states []
    rwa [List.append_nil] at h
  simp [serializeModel, parseModel, List.append_assoc, parseTable_encodes, hs]

theorem validateModel_of_wellFormed (m : Model) (h : wellFormed m) :
    validateModel m = .ok m := by
  obtain ⟨h₁, h₂, h₃, h₄⟩ := h
  simp [validateModel, h₁, h₂, h₃, h₄]

theorem validateModel_ok (m₀ m : Model) (h : validateModel m₀ = .ok m) :
    m₀ = m ∧ wellFormed m := by
  unfold validateModel at h
  split_ifs at h with h₁ h₂ h₃ h₄
  any_goals simp at h
  cases h
  exact ⟨rfl, h₁, h₂, h₃, h₄⟩

theorem parsePairs_append (n : Nat) (ts tl : List Tok) (ps : SymbolTable)
    (r : List Tok) (h : parsePairs n ts = .ok (ps, r)) :
    parsePairs n (ts ++ tl) = .ok (ps, r ++ tl) := by
  induction n generalizing ts ps r with
  | zero =>
    simp [parsePairs] at h
    obtain ⟨h₁, h₂⟩ := h
    subst h₁; subst h₂
    simp [parsePairs]
  | succ n ih =>
    cases ts with
    | nil => simp [parsePairs] at h
    | cons t₁ ts₁ =>
      cases ts₁ with
      | nil => cases t₁ <;> simp [parsePairs] at h
      | cons t₂ ts₂ =>
        cases t₁ <;> cases t₂ <;> try simp [parsePairs] at h
        case str.nat s i =>
          cases heq : parsePairs n ts₂ with
          | error e => rw [heq] at h; simp at h
          | ok pr =>
            obtain ⟨ps₂, r₂⟩ := pr
            rw [heq] at h
            simp at h
            obtain ⟨h₁, h₂⟩ := h
            subst h₁; subst h₂
            simp [parsePairs, ih ts₂ ps₂ r₂ heq]

theorem parseTable_append (ts tl : List Tok) (t : SymbolTable) (r : List Tok)
    (h : parseTable ts = .ok (t, r)) :
    parseTable (ts ++ tl) = .ok (t, r ++ tl) := by
  cases ts with
  | nil => simp [parseTable] at h
  | cons t₁ ts₁ =>
    cases t₁ <;> simp [parseTable] at h ⊢
    exact parsePairs_append _ _ _ _ _ h

theorem parseArcs_append (n : Nat) (ts tl : List Tok) (as : List FstArc)
    (r : List Tok) (h : parseArcs n ts = .ok (as, r)) :
    parseArcs n (ts ++ tl) = .ok (as, r ++ tl) := by
  induction n generalizing ts as r with
  | zero =>
    simp [parseArcs] at h
    obtain ⟨h₁, h₂⟩ := h
    subst h₁; subst h₂
    simp [parseArcs]
  | succ n ih =>
    cases ts with
    | nil => simp [parseArcs] at h
    | cons t₁ ts₁ =>
      cases ts₁ with
      | nil => cases t₁ <;> simp [parseArcs] at h
      | cons t₂ ts₂ =>
        cases ts₂ with
        | nil => cases t₁ <;> cases t₂ <;> simp [parseArcs] at h
        | cons t₃ ts₃ =>
          cases ts₃ with
          | nil => cases t₁ <;> cases t₂ <;> cases t₃ <;> simp [parseArcs] at h
          | cons t₄ ts₄ =>
            cases t₁ <;> cases t₂ <;> cases t₃ <;> cases t₄ <;>
              try simp [parseArcs] at h
            case nat.nat.rat.nat i o w t =>
              cases heq : parseArcs n ts₄ with
              | error e => rw [heq] at h; simp at h
              | ok pr =>
                obtain ⟨as₂, r₂⟩ := pr
                rw [heq] at h
                simp at h
                obtain ⟨h₁, h₂⟩ := h
                subst h₁; subst h₂
                simp [parseArcs, ih ts₄ as₂ r₂ heq]

theorem parseState_append (ts tl : List Tok) (st : FstState) (r : List Tok)
    (h : parseState ts = .ok (st, r)) :
    parseState (ts ++ tl) = .ok (st, r ++ tl) := by
  unfold parseState at h ⊢
  split at h
  · rename_i w n r₀
    cases heq : parseArcs n r₀ with
    | error e => rw [heq] at h; simp at h
    | ok pr =>
      obtain ⟨as, r₂⟩ := pr
      rw [heq] at h
      simp at h
      obtain ⟨h₁, h₂⟩ := h
      subst h₁; subst h₂
      simp [parseArcs_append n r₀ tl as r₂ heq]
  · rename_i n r₀
    cases heq : parseArcs n r₀ with
    | error e => rw [heq] at h; simp at h
    | ok pr =>
      obtain ⟨as, r₂⟩ := pr
      rw [heq] at h
      simp at h
      obtain ⟨h₁, h₂⟩ := h
      subst h₁; subst h₂
      simp [parseArcs_append n r₀ tl as r₂ heq]
  · simp at h

theorem parseStates_append (n : Nat) (ts tl : List Tok) (sts : List FstState)
    (r : List Tok) (h : parseStates n ts = .ok (sts, r)) :
    parseStates n (ts ++ tl) = .ok (sts, r ++ tl) := by
  induction n generalizing ts sts r with
  | zero =>
    simp [parseStates] at h
    obtain ⟨h₁, h₂⟩ := h
    subst h₁; subst h₂
    simp [parseStates]
  | succ n ih =>
    cases heq : parseState ts with
    | error e => simp [parseStates, heq] at h
    | ok pr =>
      obtain ⟨st, r₁⟩ := pr
      cases heq₂ : parseStates n r₁ with
      | error e => simp [parseStates, heq, heq₂] at h
      | ok pr₂ =>
        obtain ⟨sts₂, r₂⟩ := pr₂
        simp [parseStates, heq, heq₂] at h
        obtain ⟨h₁, h₂⟩ := h
        subst h₁; subst h₂
        simp [parseStates, parseState_append ts tl st r₁ heq, ih r₁ sts₂ r₂ heq₂]

theorem parseModel_ok_append (ts tl : List Tok) (m : Model) (hne : tl ≠ [])
    (h : parseModel ts = .ok m) :
    parseModel (ts ++ tl) = .error .corruptHeader := by
  cases ts with
  | nil => simp [parseModel] at h
  | cons t₁ ts₁ =>
    cases ts₁ with
    | nil => cases t₁ <;> simp [parseModel] at h
    | cons t₂ r =>
      cases t₁ with
      | str s => simp [parseModel] at h
      | rat q => simp [parseModel] at h
      | nat mg =>
        cases t₂ with
        | str s => simp [parseModel] at h
        | rat q => simp [parseModel] at h
        | nat v =>
          by_cases hcond : mg = magicNumber ∧ v = formatVersion
          · cases heqi : parseTable r with
            | error e => simp [parseModel, hcond, heqi] at h
            | ok pri =>
              obtain ⟨tIn, r₁⟩ := pri
              cases heqo : parseTable r₁ with
              | error e => simp [parseModel, hcond, heqi, heqo] at h
              | ok pro =>
                obtain ⟨tOut, r₂⟩ := pro
                cases r₂ with
                | nil => simp [parseModel, hcond, heqi, heqo] at h
                | cons t₃ r₃ =>
                  cases t₃ with
                  | str s => simp [parseModel, hcond, heqi, heqo] at h
                  | rat q => simp [parseModel, hcond, heqi, heqo] at h
                  | nat n =>
                    cases heqs : parseStates n r₃ with
                    | error e => simp [parseModel, hcond, heqi, heqo, heqs] at h
                    | ok prs =>
                      obtain ⟨sts, r₄⟩ := prs
                      cases r₄ with
                      | cons t₅ r₅ =>
                        simp [parseModel, hcond, heqi, heqo, heqs] at h
                      | nil =>
                        simp only [List.cons_append]
                        simp [parseModel, hcond,
                          parseTable_append r tl tIn r₁ heqi,
                          parseTable_append r₁ tl tOut (Tok.nat n :: r₃) heqo,
                          parseStates_append n r₃ tl sts [] heqs, hne]
          · simp [parseModel, hcond] at h

/-- C3: loadModel is atomic on error: whenever it returns a Model, that
Model satisfies every structural-integrity check (never a partially valid
Model), and every strict truncation of a serialized model fails to load,
always with a LoadError. -/
theorem loadModel_never_partial (ts : List Tok) (m : Model) (k : Nat)
    (h : loadModel ts = .ok m) (hk : k < (serializeModel m).length) :
    wellFormed m ∧ ∃ e, loadModel ((serializeModel m).take k) = .error e := by
  constructor
  · unfold loadModel at h
    cases hp : parseModel ts with
    | error e => rw [hp] at h; simp at h
    | ok m₀ =>
      rw [hp] at h
      exact (validateModel_ok m₀ m h).2
  · cases hp : parseModel ((serializeModel m).take k) with
    | error e => exact ⟨e, by simp [loadModel, hp]⟩
    | ok m₂ =>
      exfalso
      have hdrop : (serializeModel m).drop k ≠ [] := by
        intro hcontra
        rw [List.drop_eq_nil_iff] at hcontra
        omega
      have happ := parseModel_ok_append ((serializeModel m).take k)
        ((serializeModel m).drop k) m₂ hdrop hp
      rw [List.take_append_drop, parseModel_serialize m] at happ
      simp at happ

/-- Witness for C3: the serialized single-arc model loads back as a
well-formed model, and its truncation to 3 tokens fails with a LoadError. -/
theorem loadModel_never_partial_witness :
    wellFormed model9 ∧
      ∃ e, loadModel ((serializeModel model9).take 3) = .error e :=
  loadModel_never_partial (serializeModel model9) model9 3 rfl (by decide)

/-- C6: serialization round-trip: serializing an in-memory Model that
satisfies the loader's structural invariants and loading the result yields
exactly the original Model, in particular identical symbol tables and arc
sets. -/
theorem serialize_load_round_trip (m : Model) (h : wellFormed m) :
    loadModel (serializeModel m) = .ok m := by
  unfold loadModel
  rw [parseModel_serialize]
  exact validateModel_of_wellFormed m h

/-- Witness for C6: the round trip on the concrete single-arc model. -/
theorem serialize_load_round_trip_witness :
    loadModel (serializeModel model9) = .ok model9 :=
  serialize_load_round_trip model9 (by decide)

/-- C2: every result sequence returned by phonemizeWord is sorted by
non-decreasing score (ascending negative-log score), and single-best mode
(nBest 1, same remaining options) returns exactly the one-element prefix of
that ordered sequence. -/
theorem phonemizeWord_sorted_and_single_best (m : Model) (w : String) (o : Options)
    (hn : 1 ≤ o.nBest) (rs rs₁ : List PhonemizationResult)
    (h : phonemizeWord m w o = .ok rs)
    (h₁ : phonemizeWord m w ⟨1, o.beamWidth, o.maxEpsilonDepth⟩ = .ok rs₁) :
    List.Sorted resLE rs ∧ rs₁ = rs.take 1 := by
  obtain ⟨n, bw, ed⟩ := o
  by_cases hw : w = ""
  · simp [phonemizeWord, hw] at h
  · simp only [phonemizeWord, if_neg hw, Except.ok.injEq] at h h₁
    subst h h₁
    constructor
    · exact List.Pairwise.sublist (List.take_sublist _ _) (rankedResults_sorted m _ w)
    · rw [List.take_take, rankedResults_nBest_irrelevant m w 1 n bw ed,
        Nat.min_eq_left hn]

/-- Witness for C2 on the single-arc model: the returned sequence is sorted
and single-best mode returns its one-element prefix. -/
theorem phonemizeWord_sorted_and_single_best_witness :
    List.Sorted resLE [(⟨["AH"], 1/10⟩ : PhonemizationResult)] ∧
      ([(⟨["AH"], 1/10⟩ : PhonemizationResult)] : List PhonemizationResult) =
        ([(⟨["AH"], 1/10⟩ : PhonemizationResult)] : List PhonemizationResult).take 1 :=
  phonemizeWord_sorted_and_single_best model9 "a" ⟨2, 10, 1⟩ (by decide)
    [⟨["AH"], 1/10⟩] [⟨["AH"], 1/10⟩]
    (by simp [phonemizeWord, rankedResults, completeHyps, runSeq, initialHyps,
      expandStep, epsClose, stepEps, stepConsume, pruneBeam, segment, segmentGo,
      graphemeStep, lookupTake, idOf, arcsFrom, getState, finalWeight, assemble,
      dedupBy, model9, symbolOf, emptyState, startState])
    (by simp [phonemizeWord, rankedResults, completeHyps, runSeq, initialHyps,
      expandStep, epsClose, stepEps, stepConsume, pruneBeam, segment, segmentGo,
      graphemeStep, lookupTake, idOf, arcsFrom, getState, finalWeight, assemble,
      dedupBy, model9, symbolOf, emptyState, startState])

/-- C4: phonemizeWord is deterministic: two calls with identical model, word
and options (hence a fixed beam width) return identical result sequences. -/
theorem phonemizeWord_deterministic (m₁ m₂ : Model) (w₁ w₂ : String)
    (o₁ o₂ : Options) (hm : m₁ = m₂) (hw : w₁ = w₂) (ho : o₁ = o₂) :
    phonemizeWord m₁ w₁ o₁ = phonemizeWord m₂ w₂ o₂ := by
  subst hm; subst hw; subst ho; rfl

/-- Witness for C4: two identical calls on the single-arc model agree. -/
theorem phonemizeWord_deterministic_witness :
    phonemizeWord model9 "a" ⟨1, 10, 1⟩ = phonemizeWord model9 "a" ⟨1, 10, 1⟩ :=
  phonemizeWord_deterministic model9 model9 "a" "a" ⟨1, 10, 1⟩ ⟨1, 10, 1⟩ rfl rfl rfl

/-- C5: N-best monotonicity: for K at least 1, the result sequence with
nBest K is a prefix of the result sequence with nBest K+1 for the same
model, word and remaining options (here an exact prefix, so in particular a
prefix up to reordering of tied scores). -/
theorem phonemizeWord_nBest_monotone (m : Model) (w : String) (bw ed K : Nat)
    (_hK : 1 ≤ K) (rs rs₂ : List PhonemizationResult)
    (h : phonemizeWord m w ⟨K, bw, ed⟩ = .ok rs)
    (h₂ : phonemizeWord m w ⟨K + 1, bw, ed⟩ = .ok rs₂) :
    rs <+: rs₂ := by
  by_cases hw : w = ""
  · simp [phonemizeWord, hw] at h
  · simp only [phonemizeWord, if_neg hw, Except.ok.injEq] at h h₂
    subst h h₂
    refine ⟨((rankedResults m ⟨K + 1, bw, ed⟩ w).take (K + 1)).drop K, ?_⟩
    have ht : ((rankedResults m ⟨K + 1, bw, ed⟩ w).take (K + 1)).take K =
        (rankedResults m ⟨K, bw, ed⟩ w).take K := by
      rw [List.take_take, Nat.min_eq_left (Nat.le_succ K),
        rankedResults_nBest_irrelevant m w (K + 1) K bw ed]
    rw [← ht, List.take_append_drop]

/-- Witness for C5 on the single-arc model with K = 1. -/
theorem phonemizeWord_nBest_monotone_witness :
    ([(⟨["AH"], 1/10⟩ : PhonemizationResult)] : List PhonemizationResult) <+:
      [(⟨["AH"], 1/10⟩ : PhonemizationResult)] :=
  phonemizeWord_nBest_monotone model9 "a" 10 1 1 (by decide)
    [⟨["AH"], 1/10⟩] [⟨["AH"], 1/10⟩]
    (by simp [phonemizeWord, rankedResults, completeHyps, runSeq, initialHyps,
      expandStep, epsClose, stepEps, stepConsume, pruneBeam, segment, segmentGo,
      graphemeStep, lookupTake, idOf, arcsFrom, getState, finalWeight, assemble,
      dedupBy, model9, symbolOf, emptyState, startState])
    (by simp [phonemizeWord, rankedResults, completeHyps, runSeq, initialHyps,
      expandStep, epsClose, stepEps, stepConsume, pruneBeam, segment, segmentGo,
      graphemeStep, lookupTake, idOf, arcsFrom, getState, finalWeight, assemble,
      dedupBy, model9, symbolOf, emptyState, startState])

/-- C7: for a nonempty word, phonemizeWord never returns a DecodeError; and
when no complete pronunciation path exists (in particular when a character
maps to the unknown sentinel and no arc matches it), the result is the
empty sequence. -/
theorem phonemizeWord_no_path_is_empty (m : Model) (w : String) (o : Options)
    (hw : w ≠ "") :
    (∃ rs, phonemizeWord m w o = .ok rs) ∧
    (completeHyps m o (segment m w) = [] → phonemizeWord m w o = .ok []) := by
  constructor
  · refine ⟨(rankedResults m o w).take o.nBest, ?_⟩
    simp [phonemizeWord, hw]
  · intro hc
    simp [phonemizeWord, hw, rankedResults, hc, dedupBy]

/-- Witness for C7: the single-arc model has no symbol for "b", so "b"
segments to the unknown sentinel, no arc matches it, and the decode returns
the empty result sequence (no error). -/
theorem phonemizeWord_no_path_is_empty_witness :
    phonemizeWord model9 "b" ⟨1, 10, 1⟩ = .ok [] :=
  (phonemizeWord_no_path_is_empty model9 "b" ⟨1, 10, 1⟩ (by decide)).2 rfl

/-- C8: model immutability: decode calls leave the model state unchanged,
so the model observed after any sequence of decode calls equals the model
as loaded. -/
theorem runDecodes_immutable (m : Model) (calls : List (String × Options)) :
    runDecodes m calls = m := by
  induction calls generalizing m with
  | nil => rfl
  | cons c cs ih => simpa [runDecodes, phonemizeWordS] using ih m

/-- C9: single-arc scenario: on the model with a single state that is both
start and final and one arc grapheme "a" → phoneme "AH" of weight 1/10,
phonemizeWord on the word "a" returns exactly one result with phoneme
sequence ["AH"] and score 1/10. -/
theorem phonemizeWord_single_arc_scenario :
    phonemizeWord model9 "a" ⟨1, 10, 1⟩ = .ok [⟨["AH"], 1/10⟩] := by
  simp [phonemizeWord, rankedResults, completeHyps, runSeq, initialHyps,
    expandStep, epsClose, stepEps, stepConsume, pruneBeam, segment, segmentGo,
    graphemeStep, lookupTake, idOf, arcsFrom, getState, finalWeight, assemble,
    dedupBy, model9, symbolOf, emptyState, startState]

/-- C1: for the CLI invocation with a model path and a word, on success the
program prints the word, the phonemes and the score to standard output and
exits with code 0; on any error raised by the binding (file not found, word
not phonemizable, malformed model) it prints the error and exits with
code 1. -/
theorem main_success_and_error_exit_codes (α : Type) (prog p w : String)
    (constructModel : String → Except String α)
    (phonemize_word : α → String → Except String PyResult) :
    (∀ mdl r, constructModel p = .ok mdl → phonemize_word mdl w = .ok r →
      main α [prog, p, w] constructModel phonemize_word =
        (["Word: " ++ w,
          "Phonemes: " ++ toString r.phonemes,
          "Score: " ++ scoreString r.negLogScore], 0)) ∧
    (∀ e, constructModel p = .error e →
      main α [prog, p, w] constructModel phonemize_word = (["Error: " ++ e], 1)) ∧
    (∀ mdl e, constructModel p = .ok mdl → phonemize_word mdl w = .error e →
      main α [prog, p, w] constructModel phonemize_word = (["Error: " ++ e], 1)) := by
  refine ⟨?_, ?_, ?_⟩
  · intro mdl r h1 h2
    simp [main, h1, h2]
  · intro e h1
    simp [main, h1]
  · intro mdl e h1 h2
    simp [main, h1, h2]

/-- Witness for C1: a concrete binding exercising the success path, the
construction-failure path and the phonemization-failure path. -/
theorem main_success_and_error_exit_codes_witness :
    main Unit ["example.py", "model.fst", "hello"]
        (fun _ => .ok ()) (fun _ _ => .ok ⟨["HH"], 1/2⟩) =
      (["Word: " ++ "hello",
        "Phonemes: " ++ toString (["HH"] : List String),
        "Score: " ++ scoreString (1/2)], 0) ∧
    main Unit ["example.py", "model.fst", "hello"]
        (fun _ => .error "file not found") (fun _ _ => .ok ⟨["HH"], 1/2⟩) =
      (["Error: " ++ "file not found"], 1) ∧
    main Unit ["example.py", "model.fst", "hello"]
        (fun _ => .ok ()) (fun _ _ => .error "no pronunciation") =
      (["Error: " ++ "no pronunciation"], 1) := by
  refine ⟨?_, ?_, ?_⟩
  · exact (main_success_and_error_exit_codes Unit "example.py" "model.fst" "hello"
      (fun _ => .ok ()) (fun _ _ => .ok ⟨["HH"], 1/2⟩)).1 () ⟨["HH"], 1/2⟩ rfl rfl
  · exact (main_success_and_error_exit_codes Unit "example.py" "model.fst" "hello"
      (fun _ => .error "file not found") (fun _ _ => .ok ⟨["HH"], 1/2⟩)).2.1
      "file not found" rfl
  · exact (main_success_and_error_exit_codes Unit "example.py" "model.fst" "hello"
      (fun _ => .ok ()) (fun _ _ => .error "no pronunciation")).2.2
      () "no pronunciation" rfl rfl

/-- C10: when the argument count differs from exactly two user arguments
(`len(sys.argv) != 3`), the CLI prints the usage message and exits with
code 1; the result is identical for every possible native binding, so no
model is constructed and no model I/O is performed. -/
theorem main_usage_before_model_io (α : Type) (argv : List String)
    (h : argv.length ≠ 3)
    (constructModel constructModel₂ : String → Except String α)
    (phonemize_word phonemize_word₂ : α → String → Except String PyResult) :
    main α argv constructModel phonemize_word =
      (["Usage: python example.py <model_path> <word>"], 1) ∧
    main α argv constructModel phonemize_word =
      main α argv constructModel₂ phonemize_word₂ := by
  constructor
  · simp [main, h]
  · simp [main, h]

/-- Witness for C10: a single-argument invocation yields the usage message
and exit code 1 under two different bindings. -/
theorem main_usage_before_model_io_witness :
    main Unit ["example.py"] (fun _ => .ok ()) (fun _ _ => .ok ⟨[], 0⟩) =
      (["Usage: python example.py <model_path> <word>"], 1) ∧
    main Unit ["example.py"] (fun _ => .ok ()) (fun _ _ => .ok ⟨[], 0⟩) =
      main Unit ["example.py"] (fun _ => .error "boom") (fun _ _ => .error "boom") :=
  main_usage_before_model_io Unit ["example.py"] (by decide)
    (fun _ => .ok ()) (fun _ => .error "boom")
    (fun _ _ => .ok ⟨[], 0⟩) (fun _ _ => .error "boom")

end PhonG2P
